import Mathlib

/-!
Verification of the Petri-net simulation core of the
Interaction_Strength_and_Niche_Overlap repository.

The development shallowly embeds the Python sources:
`src/generation/constants.py` (resources, net model, classic semantics),
`src/generation/basic_playout.py` (single-trace executor and batch playout)
and `src/generation/generator_based.py` (streaming event generator).
Python dict/Counter-backed markings become insertion-ordered association
lists, random draws and wall-clock reads become explicit input streams, and
unbounded `while` loops become fuel-indexed recursions returning `none` on
fuel exhaustion (modelling potential nontermination or a crash of the code).
-/

namespace PetriSim

/-- Identity of a place in a Petri net. -/
abbrev Place := Nat

/-- Token-count state of a net: an insertion-ordered association list from
places to integer counts, mirroring the Python `Counter`-backed marking.
Places absent from the list count as 0. -/
abbrev Marking := List (Place × Int)

/-- Count of place `p` in marking `m`; a place absent from the mapping has
count 0 (Python `Counter.__getitem__`). -/
def mget : Marking → Place → Int
  | [], _ => 0
  | e :: rest, p => if e.1 = p then e.2 else mget rest p

/-- Python-dict assignment `m[p] = v`: update the entry in place when the key
exists, append a new entry at the end otherwise. -/
def mset : Marking → Place → Int → Marking
  | [], p, v => [(p, v)]
  | e :: rest, p, v => if e.1 = p then (p, v) :: rest else e :: mset rest p v

/-- Python-dict deletion `del m[p]`. -/
def mdel : Marking → Place → Marking
  | [], _ => []
  | e :: rest, p => if e.1 = p then mdel rest p else e :: mdel rest p

/-- Modelled from the spec: equality of the external `pm4py.Marking` values
(the library itself is not part of this repository) — two markings are equal
iff counts match on every place present in either. -/
def mEq (m1 m2 : Marking) : Bool :=
  (m1 ++ m2).all (fun e => mget m1 e.1 == mget m2 e.1)

/-- Modelled from the spec: the partial order of the external `pm4py.Marking`
(the library itself is not part of this repository) — `m1 ≤ m2` iff for every
place the count in `m1` is at most the count in `m2`, treating absence as 0. -/
def mLe (m1 m2 : Marking) : Bool :=
  (m1 ++ m2).all (fun e => decide (mget m1 e.1 ≤ mget m2 e.1))

/-- Python `final_marking == marking` where the left side is optional:
`None == m` is `False`. -/
def omEq (o : Option Marking) (m : Marking) : Bool :=
  o.any (fun f => mEq f m)

/-- Python `final_marking <= marking` where the caller has already checked
`final_marking is not None`; `none` yields `false`. -/
def omLe (o : Option Marking) (m : Marking) : Bool :=
  o.any (fun f => mLe f m)

/-- Source `BaseResource` from `src/generation/constants.py`: name, total capacity,
current available count and last release timestamp. Timestamps are abstract
integers. -/
structure BaseResource where
  name : String
  capacity : Int
  available : Int
  latest_release_time : Option Int
deriving Repr, DecidableEq

/-- Source `BaseResource.__init__`: the available count starts at the capacity. -/
def mkResource (name : String) (capacity : Int) : BaseResource :=
  { name := name, capacity := capacity, available := capacity, latest_release_time := none }

/-- Source `BaseResource.is_available`. -/
def is_available (r : BaseResource) : Bool :=
  decide (0 < r.available)

/-- Source `BaseResource.acquire`: decrement and succeed when available, otherwise
leave the resource unchanged and fail. -/
def acquire (r : BaseResource) : BaseResource × Bool :=
  if is_available r then ({ r with available := r.available - 1 }, true)
  else (r, false)

/-- Source `BaseResource.release`: increment the available count (the source applies
no cap) and record the release time. -/
def release (r : BaseResource) (release_time : Int) : BaseResource :=
  { r with available := r.available + 1, latest_release_time := some release_time }

/-- One call against a resource: an acquire, or a release at a given time. -/
inductive ResOp where
  | acq : ResOp
  | rel : Int → ResOp
deriving Repr, DecidableEq

/-- Run a sequence of acquire/release calls against a resource. -/
def runOps (r : BaseResource) : List ResOp → BaseResource
  | [] => r
  | ResOp.acq :: ops => runOps (acquire r).1 ops
  | ResOp.rel t :: ops => runOps (release r t) ops

lemma runOps_available_nonneg (ops : List ResOp) (r : BaseResource)
    (h : 0 ≤ r.available) : 0 ≤ (runOps r ops).available := by
  induction ops generalizing r with
  | nil => exact h
  | cons op ops ih =>
    cases op with
    | acq =>
      unfold runOps acquire
      by_cases hav : is_available r
      · simp only [hav, if_pos]
        apply ih
        show 0 ≤ r.available - 1
        have : 0 < r.available := by
          simpa [is_available] using hav
        omega
      · simp only [hav, if_neg, not_false_iff]
        exact ih r h
    | rel t =>
      unfold runOps release
      apply ih
      show 0 ≤ r.available + 1
      omega

/-- Claim C1 (amended): after any sequence of acquire/release calls on a
resource constructed with capacity `c ≥ 0`, the available count stays ≥ 0;
an acquire at `available = 0` returns `False` and leaves the resource
unchanged; but a release unconditionally increments the available count by
one — it is not capped at the capacity. -/
theorem claim_C1_amended (n : String) (c : Int) (ops : List ResOp)
    (r : BaseResource) (t : Int) (hc : 0 ≤ c) (h0 : r.available = 0) :
    0 ≤ (runOps (mkResource n c) ops).available ∧
    acquire r = (r, false) ∧
    (release r t).available = r.available + 1 := by
  refine ⟨runOps_available_nonneg ops (mkResource n c) hc, ?_, rfl⟩
  unfold acquire
  have : ¬ is_available r = true := by simp [is_available, h0]
  simp [this]

/-- Claim C1 witness: the amended statement evaluated on capacity 1, the call
sequence [acquire, release 0], and a zero-available resource. -/
theorem claim_C1_witness :
    (0 : Int) ≤ 1 ∧ (mkResource "y" 0).available = 0 ∧
    (0 ≤ (runOps (mkResource "x" 1) [ResOp.acq, ResOp.rel 0]).available ∧
      acquire (mkResource "y" 0) = (mkResource "y" 0, false) ∧
      (release (mkResource "y" 0) 7).available = (mkResource "y" 0).available + 1) :=
  ⟨by decide, by decide,
    claim_C1_amended "x" 1 [ResOp.acq, ResOp.rel 0] (mkResource "y" 0) 7
      (by decide) (by decide)⟩

/-- Claim C1 counterexample: releasing a fresh resource of capacity 1 drives
the available count to 2, strictly above the capacity, so the invariant
`available ≤ capacity` and the claimed capping both fail on the code. -/
theorem claim_C1_cex :
    (release (mkResource "r" 1) 0).available = 2 ∧
    ¬ ((release (mkResource "r" 1) 0).available ≤ (release (mkResource "r" 1) 0).capacity) := by
  decide

/-- An arc from a place into a transition (`SimPetriNet.SimArc` with a place
source), as stored in the `in_arcs` of a transition. -/
structure InArc where
  source : Place
  weight : Int
deriving Repr, DecidableEq

/-- An arc from a transition to a place (`SimPetriNet.SimArc` with a place
target), as stored in the `out_arcs` of a transition. -/
structure OutArc where
  target : Place
  weight : Int
deriving Repr, DecidableEq

/-- Modelled from the spec: the `on_fire_callback` of a transition is an
arbitrary Python closure; per the spec it is a side-effect hook used to
acquire or release resources, so it is modelled as a list of resource
actions keyed by resource name. -/
inductive ResAction where
  | acquireRes : String → ResAction
  | releaseRes : String → ResAction
deriving Repr, DecidableEq

/-- Source `SimPetriNet.SimTransition`: name, optional visible label, fixed duration
(abstract time units), attribute bag, required resource names, optional
firing callback, and the adjacent arcs. -/
structure SimTransition where
  name : String
  label : Option String
  duration : Int
  attributes : List (String × Int)
  resources : List String
  onFireCallback : Option (List ResAction)
  in_arcs : List InArc
  out_arcs : List OutArc
deriving Repr, DecidableEq

/-- Class `SimPetriNet`: a named net; arcs are reachable through the
adjacency lists exactly as the semantics engine accesses them. -/
structure SimPetriNet where
  name : String
  places : List Place
  transitions : List SimTransition
deriving Repr, DecidableEq

/-- Source `ClassicPetriNetSemantics.is_enabled`: the transition belongs to the net
and no incoming arc finds fewer tokens at its source place than its weight. -/
def is_enabled (t : SimTransition) (pn : SimPetriNet) (m : Marking) : Bool :=
  decide (t ∈ pn.transitions) &&
    t.in_arcs.all (fun a => !decide (mget m a.source < a.weight))

/-- One iteration of the input-arc loop of `ClassicPetriNetSemantics.execute`:
`m_out[a.source] -= a.weight`, then delete the place if its count is
exactly 0. -/
def execConsume (acc : Marking) (a : InArc) : Marking :=
  let m1 := mset acc a.source (mget acc a.source - a.weight)
  if mget m1 a.source == 0 then mdel m1 a.source else m1

/-- One iteration of the input-arc loop of
`ClassicPetriNetSemantics.weak_execute`: as `execConsume` but the place is
deleted whenever its count is ≤ 0. -/
def weakConsume (acc : Marking) (a : InArc) : Marking :=
  let m1 := mset acc a.source (mget acc a.source - a.weight)
  if mget m1 a.source ≤ 0 then mdel m1 a.source else m1

/-- One iteration of the output-arc loop of both execute variants:
`m_out[a.target] += a.weight`. -/
def produceArc (acc : Marking) (a : OutArc) : Marking :=
  mset acc a.target (mget acc a.target + a.weight)

/-- Source `ClassicPetriNetSemantics.execute`: `None` when the transition is not
enabled, otherwise the marking after consuming the input arcs and producing
the output arcs on a copy of the input marking. -/
def execute (t : SimTransition) (pn : SimPetriNet) (m : Marking) : Option Marking :=
  if is_enabled t pn m then
    some (t.out_arcs.foldl produceArc (t.in_arcs.foldl execConsume m))
  else none

/-- Source `ClassicPetriNetSemantics.weak_execute`: the same transformation without
the enabledness guard, deleting places whose count drops to ≤ 0. -/
def weak_execute (t : SimTransition) (pn : SimPetriNet) (m : Marking) : Marking :=
  t.out_arcs.foldl produceArc (t.in_arcs.foldl weakConsume m)

/-- Source `ClassicPetriNetSemantics.enabled_transitions`: the transitions of the
net that are enabled at `m`, in the transition order of the net. -/
def enabled_transitions (pn : SimPetriNet) (m : Marking) : List SimTransition :=
  pn.transitions.filter (fun t => is_enabled t pn m)

lemma mget_mset_self (m : Marking) (p : Place) (v : Int) :
    mget (mset m p v) p = v := by
  induction m with
  | nil => simp [mset, mget]
  | cons e rest ih =>
    by_cases he : e.1 = p
    · simp [mset, mget, he]
    · simp [mset, mget, he, ih]

lemma mget_mset_ne (m : Marking) (p q : Place) (v : Int) (h : q ≠ p) :
    mget (mset m p v) q = mget m q := by
  induction m with
  | nil => simp [mset, mget, Ne.symm h]
  | cons e rest ih =>
    by_cases he : e.1 = p
    · have : ¬ e.1 = q := by rw [he]; exact Ne.symm h
      simp [mset, mget, he, Ne.symm h, this]
    · by_cases heq : e.1 = q
      · simp [mset, mget, he, heq, h]
      · simp [mset, mget, he, heq, ih]

lemma mget_mdel_ne (m : Marking) (p q : Place) (h : q ≠ p) :
    mget (mdel m p) q = mget m q := by
  induction m with
  | nil => simp [mdel]
  | cons e rest ih =>
    by_cases hep : e.1 = p
    · have : ¬ e.1 = q := by rw [hep]; exact Ne.symm h
      simp [mdel, mget, hep, this, ih, Ne.symm h]
    · by_cases heq : e.1 = q
      · simp [mdel, mget, hep, heq, h]
      · simp [mdel, mget, hep, heq, ih]

lemma mget_execConsume_ne (acc : Marking) (a : InArc) (q : Place)
    (h : q ≠ a.source) : mget (execConsume acc a) q = mget acc q := by
  unfold execConsume
  by_cases hz : mget (mset acc a.source (mget acc a.source - a.weight)) a.source == 0
  · simp only [hz, if_pos]
    rw [mget_mdel_ne _ _ _ h, mget_mset_ne _ _ _ _ h]
  · simp only [hz, if_neg, Bool.false_eq_true, not_false_iff]
    rw [mget_mset_ne _ _ _ _ h]

lemma mget_weakConsume_ne (acc : Marking) (a : InArc) (q : Place)
    (h : q ≠ a.source) : mget (weakConsume acc a) q = mget acc q := by
  unfold weakConsume
  by_cases hz : mget (mset acc a.source (mget acc a.source - a.weight)) a.source ≤ 0
  · simp only [hz, if_pos]
    rw [mget_mdel_ne _ _ _ h, mget_mset_ne _ _ _ _ h]
  · simp only [hz, if_neg, not_false_iff]
    rw [mget_mset_ne _ _ _ _ h]

lemma mget_consume_fold_ne (arcs : List InArc) (m : Marking) (q : Place)
    (h : q ∉ arcs.map InArc.source) :
    mget (arcs.foldl execConsume m) q = mget m q := by
  induction arcs generalizing m with
  | nil => rfl
  | cons a rest ih =>
    simp only [List.map_cons, List.mem_cons, not_or] at h
    rw [List.foldl_cons, ih _ h.2, mget_execConsume_ne _ _ _ h.1]

lemma mget_produce_fold_ne (arcs : List OutArc) (m : Marking) (q : Place)
    (h : q ∉ arcs.map OutArc.target) :
    mget (arcs.foldl produceArc m) q = mget m q := by
  induction arcs generalizing m with
  | nil => rfl
  | cons a rest ih =>
    simp only [List.map_cons, List.mem_cons, not_or] at h
    rw [List.foldl_cons, ih _ h.2]
    unfold produceArc
    rw [mget_mset_ne _ _ _ _ h.1]

/-- Enabledness as worded in the claim: the transition belongs to the
transition set of the net and, for every incoming arc, the token count at
the source place of the arc (absence counting as 0) is at least the weight
of the arc. -/
def specEnabled (t : SimTransition) (pn : SimPetriNet) (m : Marking) : Bool :=
  decide (t ∈ pn.transitions) &&
    t.in_arcs.all (fun a => decide (a.weight ≤ mget m a.source))

/-- Firing transformation as worded in the claim: subtract each incoming
weight of each incoming arc from its source place, removing the place when
its count reaches exactly 0. -/
def specConsume : Marking → List InArc → Marking
  | m, [] => m
  | m, a :: rest =>
    let c := mget m a.source - a.weight
    specConsume (if c = 0 then mdel (mset m a.source c) a.source else mset m a.source c) rest

/-- Firing transformation as worded in the claim: add the weight of each
outgoing arc to its target place. -/
def specProduce : Marking → List OutArc → Marking
  | m, [] => m
  | m, a :: rest => specProduce (mset m a.target (mget m a.target + a.weight)) rest

/-- The complete claim-side firing transformation. -/
def specFire (t : SimTransition) (m : Marking) : Marking :=
  specProduce (specConsume m t.in_arcs) t.out_arcs

lemma is_enabled_eq_spec (t : SimTransition) (pn : SimPetriNet) (m : Marking) :
    is_enabled t pn m = specEnabled t pn m := by
  have hfun : (fun a : InArc => !decide (mget m a.source < a.weight)) =
      (fun a : InArc => decide (a.weight ≤ mget m a.source)) := by
    funext a
    by_cases h : mget m a.source < a.weight
    · simp [h, not_le.mpr h]
    · simp [h, not_lt.mp h]
  rw [is_enabled, specEnabled, hfun]

lemma is_enabled_iff (t : SimTransition) (pn : SimPetriNet) (m : Marking) :
    is_enabled t pn m = true ↔
      (t ∈ pn.transitions ∧ ∀ a ∈ t.in_arcs, a.weight ≤ mget m a.source) := by
  rw [is_enabled_eq_spec]
  simp [specEnabled, List.all_eq_true]

lemma consume_fold_eq_spec (arcs : List InArc) (m : Marking) :
    arcs.foldl execConsume m = specConsume m arcs := by
  induction arcs generalizing m with
  | nil => rfl
  | cons a rest ih =>
    rw [List.foldl_cons, ih]
    simp only [specConsume]
    congr 1
    unfold execConsume
    simp only [mget_mset_self]
    by_cases h : mget m a.source - a.weight = 0 <;> simp [h]

lemma produce_fold_eq_spec (arcs : List OutArc) (m : Marking) :
    arcs.foldl produceArc m = specProduce m arcs := by
  induction arcs generalizing m with
  | nil => rfl
  | cons a rest ih =>
    rw [List.foldl_cons, ih]
    simp only [specProduce, produceArc]

/-- Claim C2: `is_enabled(t, pn, m)` returns true if and only if `t` belongs
to the transition set of the net and, for every incoming arc, the token
count of `m` at the source place of the arc (absent places counting as 0)
is at least the weight of the arc. -/
theorem claim_C2 (t : SimTransition) (pn : SimPetriNet) (m : Marking) :
    is_enabled t pn m = true ↔
      (t ∈ pn.transitions ∧ ∀ a ∈ t.in_arcs, a.weight ≤ mget m a.source) :=
  is_enabled_iff t pn m

/-- Claim C3: `execute` returns no result exactly when the transition is not
enabled; when it succeeds it returns the marking obtained by subtracting each
weight of each incoming arc from its source place (removing the place at
count exactly 0) and adding the weight of each outgoing arc to its target
place; and the
failure value is distinguishable from a legitimately returned empty
marking. -/
theorem claim_C3 (t : SimTransition) (pn : SimPetriNet) (m : Marking) :
    execute t pn m = (if specEnabled t pn m then some (specFire t m) else none) ∧
    (execute t pn m = none ↔ is_enabled t pn m = false) ∧
    (none : Option Marking) ≠ some [] := by
  refine ⟨?_, ?_, by simp⟩
  · unfold execute specFire
    rw [is_enabled_eq_spec, consume_fold_eq_spec, produce_fold_eq_spec]
  · unfold execute
    by_cases h : is_enabled t pn m <;> simp [h]

lemma consume_eq_weak (arcs : List InArc) (m : Marking)
    (hnd : (arcs.map InArc.source).Nodup)
    (hen : ∀ a ∈ arcs, a.weight ≤ mget m a.source) :
    arcs.foldl execConsume m = arcs.foldl weakConsume m := by
  induction arcs generalizing m with
  | nil => rfl
  | cons a rest ih =>
    rw [List.foldl_cons, List.foldl_cons]
    have hstep : execConsume m a = weakConsume m a := by
      unfold execConsume weakConsume
      simp only [mget_mset_self]
      have hw : a.weight ≤ mget m a.source := hen a (List.mem_cons_self a rest)
      by_cases h : mget m a.source - a.weight = 0
      · simp [h]
      · have hpos : ¬ mget m a.source - a.weight ≤ 0 := by omega
        simp [h, hpos]
    rw [hstep]
    apply ih
    · exact (List.nodup_cons.mp hnd).2
    · intro b hb
      have hbneq : b.source ≠ a.source := by
        intro hcontra
        exact (List.nodup_cons.mp hnd).1
          (hcontra ▸ (List.mem_map_of_mem InArc.source hb))
      rw [mget_weakConsume_ne _ _ _ hbneq]
      exact hen b (List.mem_cons_of_mem a hb)

/-- Claim C6 (amended): `weak_execute` always returns a marking applying the
subtract-incoming/add-outgoing transformation with removal at counts ≤ 0;
and whenever the transition is enabled AND its incoming arcs have pairwise
distinct source places, `weak_execute` agrees with `execute`. (With
duplicated in-arc sources the two differ, see the counterexample.) -/
theorem claim_C6_amended (t : SimTransition) (pn : SimPetriNet) (m : Marking)
    (hnd : (t.in_arcs.map InArc.source).Nodup)
    (hen : is_enabled t pn m = true) :
    execute t pn m = some (weak_execute t pn m) := by
  unfold execute weak_execute
  simp only [hen, if_pos]
  have harcs := ((is_enabled_iff t pn m).mp hen).2
  rw [consume_eq_weak t.in_arcs m hnd harcs]

/-- A transition with a visible label and one arc in, one arc out; used as a
concrete witness input. -/
def tW : SimTransition :=
  { name := "t", label := some "A", duration := 10, attributes := [],
    resources := [], onFireCallback := none,
    in_arcs := [{ source := 1, weight := 1 }],
    out_arcs := [{ target := 2, weight := 1 }] }

/-- A one-transition net over places 1 and 2. -/
def netW : SimPetriNet :=
  { name := "n", places := [1, 2], transitions := [tW] }

/-- Claim C6 witness: the amended statement evaluated on the one-transition
net at marking `{1: 1}`. -/
theorem claim_C6_witness :
    (tW.in_arcs.map InArc.source).Nodup ∧ is_enabled tW netW [(1, 1)] = true ∧
      execute tW netW [(1, 1)] = some (weak_execute tW netW [(1, 1)]) :=
  ⟨by decide, by decide, claim_C6_amended tW netW [(1, 1)] (by decide) (by decide)⟩

/-- A transition consuming twice from place 1 through two parallel arcs. -/
def tDup : SimTransition :=
  { name := "d", label := none, duration := 0, attributes := [],
    resources := [], onFireCallback := none,
    in_arcs := [{ source := 1, weight := 1 }, { source := 1, weight := 1 }],
    out_arcs := [{ target := 2, weight := 1 }] }

/-- A net holding the parallel-arc transition. -/
def netDup : SimPetriNet :=
  { name := "nd", places := [1, 2], transitions := [tDup] }

/-- Claim C6 counterexample: with two parallel arcs from place 1 (weight 1
each) and marking `{1: 1}`, the transition is enabled (each arc is checked
against the original marking separately), yet `execute` keeps place 1 at
count −1 while `weak_execute` deletes it, so the two results differ. -/
theorem claim_C6_cex :
    is_enabled tDup netDup [(1, 1)] = true ∧
    execute tDup netDup [(1, 1)] = some [(1, -1), (2, 1)] ∧
    weak_execute tDup netDup [(1, 1)] = [(2, 1)] ∧
    execute tDup netDup [(1, 1)] ≠ some (weak_execute tDup netDup [(1, 1)]) := by
  refine ⟨by decide, by decide, by decide, by decide⟩

/-- Claim C7: for every enabled transition, the marking returned by `execute`
gives every place that is neither the source of an incoming arc nor the
target of an outgoing arc of the transition exactly the token count it had in
the input marking. -/
theorem claim_C7 (t : SimTransition) (pn : SimPetriNet) (m : Marking) (q : Place)
    (hen : is_enabled t pn m = true)
    (hin : q ∉ t.in_arcs.map InArc.source)
    (hout : q ∉ t.out_arcs.map OutArc.target) :
    (execute t pn m).isSome = true ∧
    mget ((execute t pn m).getD []) q = mget m q := by
  unfold execute
  simp only [hen, if_pos]
  refine ⟨rfl, ?_⟩
  show mget (t.out_arcs.foldl produceArc (t.in_arcs.foldl execConsume m)) q = mget m q
  rw [mget_produce_fold_ne _ _ _ hout, mget_consume_fold_ne _ _ _ hin]

/-- Claim C7 witness: on the one-transition net with marking `{1:1, 3:5}`,
place 3 is not adjacent to the transition and keeps its count 5 across the
firing. -/
theorem claim_C7_witness :
    is_enabled tW netW [(1, 1), (3, 5)] = true ∧
    (3 : Place) ∉ tW.in_arcs.map InArc.source ∧
    (3 : Place) ∉ tW.out_arcs.map OutArc.target ∧
    ((execute tW netW [(1, 1), (3, 5)]).isSome = true ∧
      mget ((execute tW netW [(1, 1), (3, 5)]).getD []) 3 = mget [(1, 1), (3, 5)] 3) :=
  ⟨by decide, by decide, by decide,
    claim_C7 tW netW [(1, 1), (3, 5)] 3 (by decide) (by decide) (by decide)⟩

/-- The candidate list over which the uniform random draw of
`select_transition` (basic_playout.py) is taken: when a final marking is
configured, `final_marking <= marking` holds and either `final_marking ==
marking` or the superset-accepted flag is set, the enabled transitions are
augmented with the synthetic stop option `none`; otherwise the enabled
transitions alone. -/
def selectCandidates (all_enabled_trans : List SimTransition)
    (final_marking : Option Marking) (marking : Marking)
    (fm_leq_accepted : Bool) : List (Option SimTransition) :=
  match final_marking with
  | some f =>
    if mLe f marking && (mEq f marking || fm_leq_accepted) then
      all_enabled_trans.map some ++ [none]
    else all_enabled_trans.map some
  | none => all_enabled_trans.map some

/-- Source `select_transition` (basic_playout.py): a draw `d` picks an element of
the candidate list (`random.choice`); the outer `none` is the error of
drawing from an empty list, `some none` is the synthetic stop option. -/
def select_transition (all_enabled_trans : List SimTransition)
    (final_marking : Option Marking) (marking : Marking)
    (fm_leq_accepted : Bool) (d : Nat) : Option (Option SimTransition) :=
  let cands := selectCandidates all_enabled_trans final_marking marking fm_leq_accepted
  cands.get? (d % cands.length)

/-- An element of the visited-elements sequence of `execute_single_trace`:
either a marking snapshot or a fired transition. -/
inductive SimNode where
  | mark : Marking → SimNode
  | trans : SimTransition → SimNode
deriving Repr, DecidableEq

/-- The `while` loop of `execute_single_trace` (basic_playout.py), indexed by
fuel; `draws` is the stream of random draws and `dIx` the next draw index.
Returns the visited elements, the final marking and the next draw index, or
`none` when the fuel runs out or the code would crash. -/
def traceLoop (net : SimPetriNet) (max_trace_length : Nat)
    (final_marking : Option Marking) (fm_leq_accepted : Bool)
    (draws : Nat → Nat) :
    Nat → List SimNode → Nat → Marking → Nat → Option (List SimNode × Marking × Nat)
  | 0, _, _, _, _ => none
  | fuel + 1, visited, visibleCount, marking, dIx =>
    if max_trace_length ≤ visibleCount then some (visited, marking, dIx)
    else
      let visited2 := visited ++ [SimNode.mark marking]
      let enabled := enabled_transitions net marking
      if enabled.isEmpty then some (visited2, marking, dIx)
      else
        match select_transition enabled final_marking marking fm_leq_accepted (draws dIx) with
        | none => none
        | some none => some (visited2, marking, dIx + 1)
        | some (some tr) =>
          let visited3 := visited2 ++ [SimNode.trans tr]
          let visibleCount2 := if tr.label.isSome then visibleCount + 1 else visibleCount
          match execute tr net marking with
          | none => none
          | some m2 =>
            traceLoop net max_trace_length final_marking fm_leq_accepted draws
              fuel visited3 visibleCount2 m2 (dIx + 1)

/-- Source `execute_single_trace` (basic_playout.py): run one trace from a copy of
the initial marking. -/
def execute_single_trace (net : SimPetriNet) (initial_marking : Marking)
    (max_trace_length : Nat) (final_marking : Option Marking)
    (fm_leq_accepted : Bool) (draws : Nat → Nat) (dIx fuel : Nat) :
    Option (List SimNode × Marking × Nat) :=
  traceLoop net max_trace_length final_marking fm_leq_accepted draws
    fuel [] 0 initial_marking dIx

/-- Source `should_add_trace` (basic_playout.py). The result is `none` on the path
where the Python expression `final_marking <= marking` would raise because
`final_marking` is `None`. -/
def should_add_trace (marking : Marking) (final_marking : Option Marking)
    (add_only_if_fm_is_reached fm_leq_accepted : Bool) : Option Bool :=
  if !add_only_if_fm_is_reached then some true
  else if omEq final_marking marking then some true
  else
    match final_marking with
    | none => none
    | some f => some (mLe f marking && fm_leq_accepted)

/-- An event of the batch event log: activity label and timestamp. -/
structure LogEvent where
  activity : String
  timestamp : Int
deriving Repr, DecidableEq

/-- A case of the batch event log: case id attribute and its events. -/
structure LogTrace where
  case_id : String
  events : List LogEvent
deriving Repr, DecidableEq

/-- The inner loop of `convert_to_event_log`: visible transitions of one
visited sequence become events, the cursor timestamp advancing by each fired
duration of each fired visible transition. -/
def convertTrace (visited : List SimNode) (curr : Int) : List LogEvent × Int :=
  visited.foldl
    (fun acc el =>
      match el with
      | SimNode.mark _ => acc
      | SimNode.trans t =>
        match t.label with
        | none => acc
        | some lab => (acc.1 ++ [{ activity := lab, timestamp := acc.2 + t.duration }],
            acc.2 + t.duration))
    ([], curr)

/-- Source `convert_to_event_log` (basic_playout.py): sequential case ids starting
at the initial case id; the cursor timestamp is threaded across traces. -/
def convertLoop : List (List SimNode) → Int → Int → List LogTrace
  | [], _, _ => []
  | v :: rest, curr, caseId =>
    let res := convertTrace v curr
    { case_id := toString caseId, events := res.1 } :: convertLoop rest res.2 (caseId + 1)

/-- Entry point of the conversion. -/
def convert_to_event_log (lists : List (List SimNode))
    (initial_timestamp initial_case_id : Int) : List LogTrace :=
  convertLoop lists initial_timestamp initial_case_id

/-- The `while True` loop of `playout_algorithm` (basic_playout.py), indexed
by fuel. State: accepted visited sequences, attempt counter `i`, draw index.
Returns the accepted sequences and final draw index. -/
def playoutLoop (net : SimPetriNet) (initial_marking : Marking)
    (no_traces max_trace_length : Nat) (final_marking : Option Marking)
    (add_only_if_fm_is_reached fm_leq_accepted : Bool)
    (draws : Nat → Nat) (traceFuel : Nat) :
    Nat → List (List SimNode) → Nat → Nat → Option (List (List SimNode) × Nat)
  | 0, _, _, _ => none
  | fuel + 1, acc, i, dIx =>
    if no_traces ≤ acc.length then some (acc, dIx)
    else if no_traces ≤ i ∧ (add_only_if_fm_is_reached = false ∨ acc.length = 0) then
      some (acc, dIx)
    else
      match execute_single_trace net initial_marking max_trace_length final_marking
          fm_leq_accepted draws dIx traceFuel with
      | none => none
      | some (visited, marking, dIx2) =>
        match should_add_trace marking final_marking add_only_if_fm_is_reached
            fm_leq_accepted with
        | none => none
        | some keep =>
          playoutLoop net initial_marking no_traces max_trace_length final_marking
            add_only_if_fm_is_reached fm_leq_accepted draws traceFuel
            fuel (if keep then acc ++ [visited] else acc) (i + 1) dIx2

/-- Source `playout_algorithm` (basic_playout.py): run the batch loop and convert
the accepted traces into an event log. -/
def playout_algorithm (net : SimPetriNet) (initial_marking : Marking)
    (no_traces max_trace_length : Nat) (initial_timestamp initial_case_id : Int)
    (final_marking : Option Marking)
    (add_only_if_fm_is_reached fm_leq_accepted : Bool)
    (draws : Nat → Nat) (fuel traceFuel : Nat) : Option (List LogTrace) :=
  match playoutLoop net initial_marking no_traces max_trace_length final_marking
      add_only_if_fm_is_reached fm_leq_accepted draws traceFuel fuel [] 0 0 with
  | none => none
  | some res => some (convert_to_event_log res.1 initial_timestamp initial_case_id)

/-- Look up a resource object by name in the shared registry (transitions
hold their resources by reference; the registry models that sharing). -/
def findRes (rs : List BaseResource) (n : String) : Option BaseResource :=
  rs.find? (fun r => r.name == n)

/-- Source `SimTransition.all_resources_available` (constants.py): every resource
required by the transition reports `is_available`. -/
def all_resources_available (rs : List BaseResource) (t : SimTransition) : Bool :=
  t.resources.all (fun n => (findRes rs n).all is_available)

/-- Apply a callback resource action to the registry at the given time. -/
def applyAction (now : Int) (rs : List BaseResource) : ResAction → List BaseResource
  | ResAction.acquireRes n => rs.map (fun r => if r.name == n then (acquire r).1 else r)
  | ResAction.releaseRes n => rs.map (fun r => if r.name == n then release r now else r)

/-- An event produced by the streaming generator: activity, timestamp,
prefixed case id, and the `attr:`-prefixed transition attributes. -/
structure Event where
  activity : String
  timestamp : Int
  case_id : String
  attrs : List (String × Int)
deriving Repr, DecidableEq

/-- Constructor parameters of `PetriNetEventGenerator` (generator_based.py);
`idTag` is the generator-unique case-id prefix. -/
structure GenConfig where
  net : SimPetriNet
  initial_marking : Marking
  final_marking : Option Marking
  max_trace_length : Nat
  add_only_if_fm_is_reached : Bool
  fm_leq_accepted : Bool
  idTag : String
deriving Repr, DecidableEq

/-- Mutable state of `PetriNetEventGenerator`: current marking, case id,
cursor timestamp, visible-firing count of the current trace, and the shared
resource registry reachable from the transitions. -/
structure GenState where
  current_marking : Marking
  current_case_id : Int
  current_timestamp : Int
  visible_transitions_count : Nat
  resources : List BaseResource
deriving Repr, DecidableEq

/-- Source `PetriNetEventGenerator._initialize_trace`. -/
def initializeTrace (cfg : GenConfig) (st : GenState) : GenState :=
  { st with current_marking := cfg.initial_marking, visible_transitions_count := 0 }

/-- Source `PetriNetEventGenerator._is_trace_acceptable`. -/
def isTraceAcceptable (cfg : GenConfig) (marking : Marking) : Bool :=
  !cfg.add_only_if_fm_is_reached ||
  omEq cfg.final_marking marking ||
  (cfg.final_marking.isSome && omLe cfg.final_marking marking && cfg.fm_leq_accepted)

/-- The candidate list of `PetriNetEventGenerator._fire_transition`,
duplicating the selection rule of `select_transition`. -/
def fireCandidates (cfg : GenConfig) (st : GenState)
    (enabled : List SimTransition) : List (Option SimTransition) :=
  match cfg.final_marking with
  | some f =>
    if mLe f st.current_marking && (mEq f st.current_marking || cfg.fm_leq_accepted) then
      enabled.map some ++ [none]
    else enabled.map some
  | none => enabled.map some

/-- Source `PetriNetEventGenerator._fire_transition`: uniform draw over the
candidate list. -/
def fireTransition (cfg : GenConfig) (st : GenState)
    (enabled : List SimTransition) (d : Nat) : Option (Option SimTransition) :=
  let cands := fireCandidates cfg st enabled
  cands.get? (d % cands.length)

/-- Source `PetriNetEventGenerator._should_start_new_trace`. -/
def shouldStartNewTrace (cfg : GenConfig) (st : GenState) : Bool :=
  decide (cfg.max_trace_length ≤ st.visible_transitions_count) ||
  (enabled_transitions cfg.net st.current_marking).isEmpty

/-- Source `PetriNetEventGenerator._handle_invalid_trace`: when the current marking
is unacceptable, reset the trace, read the wall clock into the cursor
timestamp, and report that iteration must continue. `clock`/`cIx` model the
stream of `datetime.now()` readings. -/
def handleInvalidTrace (cfg : GenConfig) (st : GenState) (clock : Nat → Int)
    (cIx : Nat) : GenState × Nat × Bool :=
  if !isTraceAcceptable cfg st.current_marking then
    let st2 := initializeTrace cfg st
    ({ st2 with current_timestamp := clock cIx }, cIx + 1, true)
  else (st, cIx, false)

/-- Source `PetriNetEventGenerator._start_new_trace`: advance the case id and reset
the trace state. -/
def startNewTrace (cfg : GenConfig) (st : GenState) : GenState :=
  initializeTrace cfg { st with current_case_id := st.current_case_id + 1 }

/-- Source `PetriNetEventGenerator._create_event`: count the visible firing, advance
the cursor timestamp by the duration, and build the event with the
generator-unique case-id prefix and `attr:`-prefixed attributes. -/
def createEvent (cfg : GenConfig) (st : GenState) (t : SimTransition)
    (lab : String) : GenState × Event :=
  let st2 := { st with
    visible_transitions_count := st.visible_transitions_count + 1,
    current_timestamp := st.current_timestamp + t.duration }
  (st2,
    { activity := lab, timestamp := st2.current_timestamp,
      case_id := cfg.idTag ++ "_" ++ toString st2.current_case_id,
      attrs := t.attributes.map (fun kv => ("attr:" ++ kv.1, kv.2)) })

/-- Source `PetriNetEventGenerator._execute_transition`: the stop option starts a
new trace; a transition with an unavailable required resource is skipped with
no state change; otherwise the transition fires, the callback runs, and a
visible label yields an event. The outer `none` is the crash of assigning a
failed `execute` result as the current marking. -/
def executeTransition (cfg : GenConfig) (st : GenState)
    (trans : Option SimTransition) : Option (GenState × Option Event) :=
  match trans with
  | none => some (startNewTrace cfg st, none)
  | some t =>
    if !all_resources_available st.resources t then some (st, none)
    else
      match execute t cfg.net st.current_marking with
      | none => none
      | some m2 =>
        let st2 := { st with current_marking := m2 }
        let st3 :=
          match t.onFireCallback with
          | none => st2
          | some acts =>
            { st2 with resources := acts.foldl (applyAction st2.current_timestamp) st2.resources }
        match t.label with
        | some lab => some ((createEvent cfg st3 t lab).1, some (createEvent cfg st3 t lab).2)
        | none => some (st3, none)

/-- The `while True` loop of `PetriNetEventGenerator.__next__`, indexed by
fuel; `dIx`/`cIx` are the next indices into the draw and wall-clock streams.
Produces the next event and the successor state, or `none` when the fuel
runs out or the code would crash. -/
def genNext (cfg : GenConfig) (draws : Nat → Nat) (clock : Nat → Int) :
    Nat → GenState → Nat → Nat → Option (Event × GenState × Nat × Nat)
  | 0, _, _, _ => none
  | fuel + 1, st, dIx, cIx =>
    let step :=
      if shouldStartNewTrace cfg st then
        let res := handleInvalidTrace cfg st clock cIx
        if res.2.2 then (res.1, res.2.1, true)
        else (startNewTrace cfg res.1, res.2.1, false)
      else (st, cIx, false)
    match step with
    | (st2, cIx2, true) => genNext cfg draws clock fuel st2 dIx cIx2
    | (st2, cIx2, false) =>
      let enabled := enabled_transitions cfg.net st2.current_marking
      if enabled.isEmpty then genNext cfg draws clock fuel (startNewTrace cfg st2) dIx cIx2
      else
        match fireTransition cfg st2 enabled (draws dIx) with
        | none => none
        | some tr =>
          match executeTransition cfg st2 tr with
          | none => none
          | some (st3, some ev) => some (ev, st3, dIx + 1, cIx2)
          | some (st3, none) => genNext cfg draws clock fuel st3 (dIx + 1) cIx2

/-- Produce the first `k` events of the generator: `k` successive `__next__`
calls, each with its own fuel bound. -/
def genRun (cfg : GenConfig) (draws : Nat → Nat) (clock : Nat → Int)
    (fuel : Nat) : Nat → GenState → Nat → Nat → Option (List Event)
  | 0, _, _, _ => some []
  | k + 1, st, dIx, cIx =>
    match genNext cfg draws clock fuel st dIx cIx with
    | none => none
    | some (ev, st2, dIx2, cIx2) =>
      match genRun cfg draws clock fuel k st2 dIx2 cIx2 with
      | none => none
      | some evs => some (ev :: evs)

/-- A constant draw stream picking index 0. -/
def drawsZ : Nat → Nat := fun _ => 0

/-- A constant draw stream picking index 1. -/
def drawsOne : Nat → Nat := fun _ => 1

/-- A wall-clock stream constantly reading 100. -/
def clockA : Nat → Int := fun _ => 100

/-- A wall-clock stream constantly reading 200. -/
def clockB : Nat → Int := fun _ => 200

/-- A generator configuration over the one-transition net whose final
marking equals `{1: 1}`. -/
def cfgW : GenConfig :=
  { net := netW, initial_marking := [(1, 1)], final_marking := some [(1, 1)],
    max_trace_length := 5, add_only_if_fm_is_reached := true,
    fm_leq_accepted := false, idTag := "g" }

/-- A generator state at marking `{1: 1}` with no resources. -/
def stW : GenState :=
  { current_marking := [(1, 1)], current_case_id := 0, current_timestamp := 0,
    visible_transitions_count := 0, resources := [] }

/-- A generator configuration over the one-transition net whose final
marking `{9: 1}` is unreachable. -/
def cfgC9 : GenConfig :=
  { net := netW, initial_marking := [(1, 1)], final_marking := some [(9, 1)],
    max_trace_length := 5, add_only_if_fm_is_reached := true,
    fm_leq_accepted := false, idTag := "g" }

/-- The initial generator state for the unreachable-final-marking run. -/
def stC9 : GenState :=
  { current_marking := [(1, 1)], current_case_id := 0, current_timestamp := 0,
    visible_transitions_count := 0, resources := [] }

/-- A net with two places and no transitions: nothing is ever enabled. -/
def netE : SimPetriNet := { name := "e", places := [1, 2], transitions := [] }

/-- A final marking unreachable in `netE` from `{1: 1}`. -/
def fmE : Marking := [(2, 1)]

/-- A resource of capacity 0: never available. -/
def rZero : BaseResource := mkResource "r" 0

/-- A transition requiring the exhausted resource `r`. -/
def tRes : SimTransition :=
  { name := "u", label := some "B", duration := 1, attributes := [],
    resources := ["r"], onFireCallback := none, in_arcs := [], out_arcs := [] }

/-- A generator state whose registry holds only the exhausted resource. -/
def stRes : GenState :=
  { current_marking := [(1, 1)], current_case_id := 0, current_timestamp := 0,
    visible_transitions_count := 0, resources := [rZero] }

/-- The augmentation condition as worded in the claim: a final marking is
configured, it is ≤ the current marking, and it equals the current marking or
the superset-accepted flag is set. -/
def specAugment (fm : Option Marking) (m : Marking) (fm_leq_accepted : Bool) : Bool :=
  fm.isSome && omLe fm m && (omEq fm m || fm_leq_accepted)

/-- Claim C5: the candidate set drawn from uniformly at random is the enabled
set plus the synthetic stop option exactly when the augmentation condition
holds and the enabled set alone otherwise; the method
`_fire_transition` draws over the same candidate set as `select_transition`;
and drawing the stop option ends the trace at the current marking. -/
theorem claim_C5 (enabled : List SimTransition) (fm : Option Marking)
    (m : Marking) (leq : Bool) (cfg : GenConfig) (st : GenState)
    (enabledG : List SimTransition) (net : SimPetriNet)
    (max_trace_length : Nat) (draws : Nat → Nat) (visited : List SimNode)
    (visible dIx fuel : Nat)
    (hvc : visible < max_trace_length)
    (hne : (enabled_transitions net m).isEmpty = false)
    (hsel : select_transition (enabled_transitions net m) fm m leq (draws dIx) = some none) :
    selectCandidates enabled fm m leq =
      (if specAugment fm m leq then enabled.map some ++ [none] else enabled.map some) ∧
    fireCandidates cfg st enabledG =
      selectCandidates enabledG cfg.final_marking st.current_marking cfg.fm_leq_accepted ∧
    traceLoop net max_trace_length fm leq draws (fuel + 1) visited visible m dIx =
      some (visited ++ [SimNode.mark m], m, dIx + 1) := by
  refine ⟨?_, ?_, ?_⟩
  · cases fm with
    | none => simp [selectCandidates, specAugment]
    | some f => simp [selectCandidates, specAugment, omLe, omEq]
  · cases hcfg : cfg.final_marking with
    | none => simp [fireCandidates, selectCandidates, hcfg]
    | some f => simp [fireCandidates, selectCandidates, hcfg]
  · have h1 : ¬ max_trace_length ≤ visible := by omega
    simp only [traceLoop, if_neg h1, hne, Bool.false_eq_true, if_neg,
      not_false_iff, hsel]

/-- Claim C5 witness: on the one-transition net at marking `{1: 1}` with the
final marking equal to the current marking, the candidate set is augmented
and the draw picking index 1 selects the stop option, ending the trace at
the current marking. -/
theorem claim_C5_witness :
    (0 : Nat) < 5 ∧
    (enabled_transitions netW [(1, 1)]).isEmpty = false ∧
    select_transition (enabled_transitions netW [(1, 1)]) (some [(1, 1)]) [(1, 1)] false
      (drawsOne 0) = some none ∧
    (selectCandidates [tW] (some [(1, 1)]) [(1, 1)] false =
      (if specAugment (some [(1, 1)]) [(1, 1)] false then [tW].map some ++ [none]
        else [tW].map some) ∧
    fireCandidates cfgW stW [tW] =
      selectCandidates [tW] cfgW.final_marking stW.current_marking cfgW.fm_leq_accepted ∧
    traceLoop netW 5 (some [(1, 1)]) false drawsOne (0 + 1) [] 0 [(1, 1)] 0 =
      some ([] ++ [SimNode.mark [(1, 1)]], [(1, 1)], 0 + 1)) :=
  ⟨by decide, by decide, by decide,
    claim_C5 [tW] (some [(1, 1)]) [(1, 1)] false cfgW stW [tW] netW 5 drawsOne
      [] 0 0 0 (by decide) (by decide) (by decide)⟩

/-- Claim C10: whenever a final marking is provided, the batch acceptance
predicate `should_add_trace` and the streaming acceptance predicate
`_is_trace_acceptable` of a generator configured with the same final marking
and flags return the same boolean (and the batch predicate does not hit its
error path). -/
theorem claim_C10 (net : SimPetriNet) (im : Marking) (mtl : Nat)
    (ao lq : Bool) (tag : String) (m f : Marking) :
    should_add_trace m (some f) ao lq =
      some (isTraceAcceptable
        { net := net, initial_marking := im, final_marking := some f,
          max_trace_length := mtl, add_only_if_fm_is_reached := ao,
          fm_leq_accepted := lq, idTag := tag } m) := by
  unfold should_add_trace isTraceAcceptable
  cases ao with
  | false => simp
  | true =>
    cases h : mEq f m with
    | true => simp [omEq, h]
    | false => simp [omEq, omLe, h]

/-- Claim C8: when the selected transition has a required resource that is
currently unavailable, `_execute_transition` emits no event and returns with
the generator state — marking, case id, cursor timestamp, visible-firing
count and resource registry — completely unchanged, as a soft skip rather
than an error. -/
theorem claim_C8 (cfg : GenConfig) (st : GenState) (t : SimTransition)
    (h : ∃ n ∈ t.resources, (findRes st.resources n).all is_available = false) :
    executeTransition cfg st (some t) = some (st, none) := by
  have hall : all_resources_available st.resources t = false := by
    rcases h with ⟨n, hn, hfail⟩
    have : ¬ all_resources_available st.resources t = true := by
      unfold all_resources_available
      rw [List.all_eq_true]
      intro hforall
      have := hforall n hn
      rw [hfail] at this
      exact Bool.false_ne_true this
    exact Bool.eq_false_iff.mpr this
  simp [executeTransition, hall]

/-- Claim C8 witness: a transition requiring the exhausted resource `r`
(capacity 0) is skipped by `_execute_transition` with no event and no state
change. -/
theorem claim_C8_witness :
    (∃ n ∈ tRes.resources, (findRes stRes.resources n).all is_available = false) ∧
    executeTransition cfgW stRes (some tRes) = some (stRes, none) :=
  ⟨by decide, claim_C8 cfgW stRes tRes (by decide)⟩

/-- Claim C9 (amended): the event sequence of the generator is a function of the
random draw stream AND the wall-clock stream read at invalid-trace resets:
two runs over the same net, initial state and configuration that are fed
identical draws and identical clock readings produce identical events. -/
theorem claim_C9_amended (cfg : GenConfig) (st : GenState)
    (fuel k dIx cIx : Nat) (d1 d2 : Nat → Nat) (c1 c2 : Nat → Int)
    (hd : d1 = d2) (hc : c1 = c2) :
    genRun cfg d1 c1 fuel k st dIx cIx = genRun cfg d2 c2 fuel k st dIx cIx := by
  subst hd
  subst hc
  rfl

/-- Claim C9 witness: the amended statement evaluated on the concrete
generator configuration with equal draw and clock streams. -/
theorem claim_C9_witness :
    drawsZ = drawsZ ∧ clockA = clockA ∧
    genRun cfgC9 drawsZ clockA 4 2 stC9 0 0 = genRun cfgC9 drawsZ clockA 4 2 stC9 0 0 :=
  ⟨rfl, rfl, claim_C9_amended cfgC9 stC9 4 2 0 0 drawsZ drawsZ clockA clockA rfl rfl⟩

/-- Claim C9 counterexample: with identical nets, markings, configurations
and random draws but different wall-clock readings, the two runs produce
different event sequences — after the first trace fails its acceptance
check, `_handle_invalid_trace` resets the cursor timestamp from the wall
clock, so the timestamp of the second event differs (110 vs 210). Random
selection is therefore not the only nondeterministic input. -/
theorem claim_C9_cex :
    genRun cfgC9 drawsZ clockA 4 2 stC9 0 0 =
      some [{ activity := "A", timestamp := 10, case_id := "g_0", attrs := [] },
            { activity := "A", timestamp := 110, case_id := "g_0", attrs := [] }] ∧
    genRun cfgC9 drawsZ clockB 4 2 stC9 0 0 =
      some [{ activity := "A", timestamp := 10, case_id := "g_0", attrs := [] },
            { activity := "A", timestamp := 210, case_id := "g_0", attrs := [] }] ∧
    genRun cfgC9 drawsZ clockA 4 2 stC9 0 0 ≠ genRun cfgC9 drawsZ clockB 4 2 stC9 0 0 := by
  refine ⟨by decide, by decide, by decide⟩

lemma playout_rejected_loop (net : SimPetriNet) (im : Marking)
    (no_traces mtl : Nat) (fm : Option Marking) (lq : Bool)
    (draws : Nat → Nat) (traceFuel : Nat)
    (hrej : ∀ dIx, ∃ v m2 d2,
      execute_single_trace net im mtl fm lq draws dIx traceFuel = some (v, m2, d2) ∧
      should_add_trace m2 fm true lq = some false) :
    ∀ k i dIx fuel, i + k = no_traces → k + 1 ≤ fuel →
      ∃ d2, playoutLoop net im no_traces mtl fm true lq draws traceFuel
        fuel [] i dIx = some ([], d2) := by
  intro k
  induction k with
  | zero =>
    intro i dIx fuel hik hf
    obtain ⟨f, rfl⟩ : ∃ f, fuel = f + 1 := ⟨fuel - 1, by omega⟩
    by_cases h0 : no_traces = 0
    · refine ⟨dIx, ?_⟩
      simp [playoutLoop, h0]
    · refine ⟨dIx, ?_⟩
      have hne : ¬ no_traces ≤ List.length ([] : List (List SimNode)) := by
        simp
        omega
      have hbrk : no_traces ≤ i ∧ ((true : Bool) = false ∨ List.length ([] : List (List SimNode)) = 0) := by
        constructor
        · omega
        · right
          rfl
      simp only [playoutLoop, if_neg hne, if_pos hbrk]
  | succ k ih =>
    intro i dIx fuel hik hf
    obtain ⟨f, rfl⟩ : ∃ f, fuel = f + 1 := ⟨fuel - 1, by omega⟩
    have hne : ¬ no_traces ≤ List.length ([] : List (List SimNode)) := by
      simp
      omega
    have hbrk : ¬ (no_traces ≤ i ∧ ((true : Bool) = false ∨ List.length ([] : List (List SimNode)) = 0)) := by
      intro hcon
      omega
    obtain ⟨v, m2, d2, hexec, hrejm⟩ := hrej dIx
    have hstep := ih (i + 1) d2 f (by omega) (by omega)
    obtain ⟨dfin, hfin⟩ := hstep
    refine ⟨dfin, ?_⟩
    simp only [playoutLoop, if_neg hne, if_neg hbrk, hexec, hrejm]
    simpa using hfin

/-- Claim C4 (amended): under reachability-gated retry with every attempted
trace rejected, the batch loop stops right after the `no_traces`-th attempt
with zero accepted traces — terminating early rather than looping forever —
but the outcome is returned as an ordinary empty event log, equal to the
output of an empty-but-successful playout, not surfaced as a distinct
condition. -/
theorem claim_C4_amended (net : SimPetriNet) (im : Marking)
    (no_traces mtl : Nat) (it ic : Int) (fm : Option Marking) (lq : Bool)
    (draws : Nat → Nat) (traceFuel fuel : Nat)
    (hf : no_traces + 1 ≤ fuel)
    (hrej : ∀ dIx, ∃ v m2 d2,
      execute_single_trace net im mtl fm lq draws dIx traceFuel = some (v, m2, d2) ∧
      should_add_trace m2 fm true lq = some false) :
    (playoutLoop net im no_traces mtl fm true lq draws traceFuel fuel [] 0 0).map
      Prod.fst = some [] ∧
    playout_algorithm net im no_traces mtl it ic fm true lq draws fuel traceFuel =
      some [] := by
  obtain ⟨d2, hloop⟩ :=
    playout_rejected_loop net im no_traces mtl fm lq draws traceFuel hrej
      no_traces 0 0 fuel (by omega) hf
  constructor
  · rw [hloop]
    rfl
  · unfold playout_algorithm
    rw [hloop]
    rfl

/-- Claim C4 witness: the amended statement on the transition-free net whose
final marking `{2: 1}` is unreachable from `{1: 1}` — one requested trace,
every attempt rejected, loop exits with the empty log. -/
theorem claim_C4_witness :
    (1 : Nat) + 1 ≤ 2 ∧
    ((playoutLoop netE [(1, 1)] 1 5 (some fmE) true false drawsZ 1 2 [] 0 0).map
        Prod.fst = some [] ∧
      playout_algorithm netE [(1, 1)] 1 5 0 0 (some fmE) true false drawsZ 2 1 =
        some []) :=
  ⟨by omega,
    claim_C4_amended netE [(1, 1)] 1 5 0 0 (some fmE) false drawsZ 1 2 (by omega)
      (fun dIx => ⟨[SimNode.mark [(1, 1)]], [(1, 1)], dIx, rfl, by decide⟩)⟩

/-- Claim C4 counterexample: the "final marking unreachable" outcome of the
reachability-gated run (1 requested trace, nothing acceptable) is returned as
exactly the same value as an empty-but-successful playout of 0 requested
traces — the condition is not distinguishable from an empty successful
log. -/
theorem claim_C4_cex :
    playout_algorithm netE [(1, 1)] 1 5 0 0 (some fmE) true false drawsZ 2 1 =
      playout_algorithm netE [(1, 1)] 0 5 0 0 none false false drawsZ 2 1 ∧
    playout_algorithm netE [(1, 1)] 1 5 0 0 (some fmE) true false drawsZ 2 1 =
      some [] := by
  refine ⟨by decide, by decide⟩

end PetriSim
